import Mathlib

/-!
Shallow embedding of the chunked-analysis core of the Video-Proofreader
repository (src/services/geminiService.ts): timestamp codec, segment
planner, per-segment timestamp correction, and result merger, together
with theorems checking the natural-language specification against them.

JavaScript modelling conventions used throughout:
* a JS string is modelled as a `List Char` (`JStr`);
* a JS number appearing in the timestamp pipeline is modelled as
  `Option Int` (`JNum`), `none` standing for `NaN`; arithmetic on `JNum`
  propagates `none` exactly as JS arithmetic propagates `NaN`;
* JSON-derived numeric fields (scores) are modelled as `Option Int`,
  `none` standing for an absent field (`undefined`);
* `Array.prototype.sort` with a comparator is modelled as a stable sort
  (mandated by ES2019); a comparator returning `NaN` is treated by the
  ES `SortCompare` operation as `+0`, i.e. "equal", which the model
  reproduces;
* `new Map(entries)` iterates the entries calling `Map.set`: a repeated
  key keeps its first insertion position but its value is overwritten by
  the later entry; `Array.from(map.values())` then yields, for each key
  in first-occurrence order, the last value bound to it.
-/

/-- A JS string, modelled as its list of characters. -/
abbrev JStr := List Char

/-- Conversion from a Lean string literal to the `JStr` model. -/
def jstr (s : String) : JStr := s.data

/-- A JS number in the timestamp pipeline: `none` models `NaN`. -/
abbrev JNum := Option Int

/-- JS `NaN`-propagating multiplication by a constant. -/
def jnumMul (a : JNum) (k : Int) : JNum := a.map (fun x => x * k)

/-- JS `NaN`-propagating addition. -/
def jnumAdd : JNum → JNum → JNum
  | some x, some y => some (x + y)
  | _, _ => none

/-- JS `v || 0` applied to a number: `NaN` (and `0` itself) are falsy and
yield `0`; any other value is returned unchanged.  On the `JNum` model this
coincides with `Option.getD 0`. -/
def jsOrZero (v : JNum) : Int := v.getD 0

/-- The digit characters accepted by `parseInt` in radix 10. -/
def isDigitChar (c : Char) : Bool := c.isDigit

/-- Numeric value of a decimal digit character. -/
def digitVal (c : Char) : Nat := c.toNat - '0'.toNat

/-- Value of a (non-empty) string of decimal digits, most significant first. -/
def digitsToNat (l : List Char) : Nat := l.foldl (fun acc c => acc * 10 + digitVal c) 0

/-- JS whitespace skipped by `parseInt` (the common cases). -/
def isJsSpace (c : Char) : Bool := c = ' ' || c = '\t' || c = '\n' || c = '\r'

/-- Model of JS `parseInt(str, 10)`: skip leading whitespace, accept an
optional sign, read the longest prefix of decimal digits; `NaN` (`none`)
when that prefix is empty, otherwise its value.  Trailing garbage is
ignored, so `parseInt("1:2:3:4", 10) = 1`. -/
def parseIntChars (l : List Char) : JNum :=
  let t := l.dropWhile isJsSpace
  match t with
  | '-' :: rest =>
      let d := rest.takeWhile isDigitChar
      if d = [] then none else some (-(digitsToNat d : Int))
  | '+' :: rest =>
      let d := rest.takeWhile isDigitChar
      if d = [] then none else some (digitsToNat d : Int)
  | _ =>
      let d := t.takeWhile isDigitChar
      if d = [] then none else some (digitsToNat d : Int)

/-- Model of JS `String(n)` for an integer. -/
def intToChars (n : Int) : JStr :=
  if n < 0 then '-' :: Nat.toDigits 10 (-n).toNat else Nat.toDigits 10 n.toNat

/-- Model of JS `str.padStart(2, '0')`. -/
def padTwo (l : JStr) : JStr :=
  if l.length < 2 then List.replicate (2 - l.length) '0' ++ l else l

/-- Model of JS `str.split(sep)` for a single-character separator:
`""` splits to `[""]`, `":"` splits to `["", ""]`, and so on. -/
def jsSplit (sep : Char) : List Char → List (List Char)
  | [] => [[]]
  | c :: rest =>
    if c = sep then [] :: jsSplit sep rest
    else
      match jsSplit sep rest with
      | [] => [[c]]
      | g :: gs => (c :: g) :: gs

/-- Model of JS `str.endsWith(c)` for a single character. -/
def jsEndsWith (l : JStr) (c : Char) : Bool :=
  match l.getLast? with
  | some d => d = c
  | none => false

/-- Model of JS `str.includes(c)` for a single character. -/
def jsIncludes (l : JStr) (c : Char) : Bool := l.contains c

/-- Model of JS `str.replace(c, '')` for a single-character pattern:
only the first occurrence is removed. -/
def replaceFirst (c : Char) : JStr → JStr
  | [] => []
  | x :: xs => if x = c then xs else x :: replaceFirst c xs

/-- Embedding of `parseTimestampToSeconds` (src/services/geminiService.ts
lines 162-172): empty string is falsy and yields `0`; a colon-free string
ending in `'s'` is parsed as raw seconds; otherwise the string is split on
`':'` and combined as `h*3600+m*60+s` (3 parts) or `m*60+s` (2 parts);
any other part count falls back to `parseInt(timeStr, 10) || 0`. -/
def parseTimestampToSeconds (timeStr : JStr) : JNum :=
  if timeStr = [] then some 0
  else if jsEndsWith timeStr 's' && !jsIncludes timeStr ':' then
    parseIntChars (replaceFirst 's' timeStr)
  else
    match (jsSplit ':' timeStr).map parseIntChars with
    | [a, b, c] => jnumAdd (jnumAdd (jnumMul a 3600) (jnumMul b 60)) c
    | [a, b] => jnumAdd (jnumMul a 60) b
    | _ => some (jsOrZero (parseIntChars timeStr))

/-- Embedding of `formatSecondsToTimestamp` (src/services/geminiService.ts
lines 174-182) on an integer input: `Math.floor(x/3600)` is floor division
(`Int.fdiv`), JS `%` is the truncating remainder (`Int.tmod`); the output
is `HH:MM:SS` when the hour component is positive, else `MM:SS`, each
component zero-padded to width 2. -/
def formatSecondsToTimestamp (seconds : Int) : JStr :=
  let h := Int.fdiv seconds 3600
  let m := Int.fdiv (Int.tmod seconds 3600) 60
  let s := Int.tmod seconds 60
  if h > 0 then
    padTwo (intToChars h) ++ ':' :: (padTwo (intToChars m) ++ ':' :: padTwo (intToChars s))
  else
    padTwo (intToChars m) ++ ':' :: padTwo (intToChars s)

/-- `formatSecondsToTimestamp` lifted to a possibly-`NaN` input: with
`seconds = NaN` every arithmetic step yields `NaN`, `NaN > 0` is false and
`String(NaN).padStart(2,'0') = "NaN"`, so the output is `"NaN:NaN"`. -/
def formatJ : JNum → JStr
  | none => jstr "NaN:NaN"
  | some n => formatSecondsToTimestamp n

/-- Embedding of `parseDurationSeconds` (src/services/geminiService.ts
lines 156-159): empty string yields `0`, otherwise `parseInt` of the
string with its first `'s'` removed. -/
def parseDurationSeconds (durationStr : JStr) : JNum :=
  if durationStr = [] then some 0
  else parseIntChars (replaceFirst 's' durationStr)

/-! ## Data model (src/types.ts and the tool schema) -/

/-- One time-stamped issue, as produced by the structured-output schema
and consumed by the merger.  Fields the schema marks optional are
`Option`-valued; `none` models an absent (`undefined`) field. -/
structure Issue where
  timestamp : JStr
  issueType : JStr
  severity : JStr
  description : JStr
  found : Option JStr := none
  shouldBe : Option JStr := none
  impact : Option JStr := none
deriving DecidableEq, Repr

/-- One point of the predicted-retention curve. -/
structure RetentionPoint where
  time : JStr
  value : Option Int := none
  label : Option JStr := none
deriving DecidableEq, Repr

/-- Platform-fit block, copied verbatim from the first segment by the
merger. -/
structure PlatformFit where
  aspectRatio : Bool
  durationFit : Bool
  thumbnail : JStr
  captions : Bool
deriving DecidableEq, Repr

/-- Marketing block of a parsed per-segment result: after `parseResponse`
the retention curve is always a list (`?.map ... || []`), while the other
fields may be absent when the model reply omitted them. -/
structure MarketingData where
  overallScore : Option Int := none
  hookScore : Option Int := none
  hookFeedback : Option JStr := none
  ctaScore : Option Int := none
  ctaFeedback : Option JStr := none
  retentionCurve : List RetentionPoint := []
deriving DecidableEq, Repr

/-- A per-segment analysis result (and likewise the merged report).
`duration` is absent (`none`) on `parseResponse` output and substituted by
the merger; `score` is `none` when the reply carried no numeric score. -/
structure AnalysisResult where
  videoTitle : JStr
  platform : JStr
  score : Option Int := none
  duration : Option JStr := none
  issues : List Issue := []
  marketing : MarketingData := {}
  platformFit : Option PlatformFit := none
deriving DecidableEq, Repr

/-- Marketing block exactly as it arrives in the raw function-call
arguments: every field, including the retention curve, may be absent. -/
structure RawMarketing where
  overallScore : Option Int := none
  hookScore : Option Int := none
  hookFeedback : Option JStr := none
  ctaScore : Option Int := none
  ctaFeedback : Option JStr := none
  retentionCurve : Option (List RetentionPoint) := none
deriving DecidableEq, Repr

/-- The raw `submit_video_analysis` arguments (`fc.args` cast in
`parseResponse`): any of the blocks may be missing from a malformed or
partial reply, which the source guards with `|| []` and `?.`. -/
structure RawArgs where
  score : Option Int := none
  issues : Option (List Issue) := none
  marketing : Option RawMarketing := none
  platformFit : Option PlatformFit := none
deriving DecidableEq, Repr

/-! ## Per-segment correction (`parseResponse`, lines 306-372) -/

/-- Embedding of the structured-arguments branch of `parseResponse`
(src/services/geminiService.ts lines 322-367): every issue timestamp and
every retention-point time is parsed to seconds, offset by `segmentStart`
exactly when `segmentStart > 0` and the parsed value is smaller than
`segmentStart` (a `NaN` comparison is false, so `NaN` timestamps are left
alone), and re-serialized through `formatSecondsToTimestamp`; all other
fields are spread through unchanged, and the missing `duration` stays
absent.  (The source function also receives a `segmentEnd` argument that
its body never uses; it is omitted here.) -/
def parseResponseArgs (args : RawArgs) (title platform : JStr)
    (segmentStart : Int) : AnalysisResult :=
  let correctedIssues := (args.issues.getD []).map (fun issue =>
    let seconds := parseTimestampToSeconds issue.timestamp
    let seconds := match seconds with
      | some t => if segmentStart > 0 && decide (t < segmentStart)
                  then some (t + segmentStart) else some t
      | none => none
    { issue with timestamp := formatJ seconds })
  let correctedRetention := match args.marketing.bind RawMarketing.retentionCurve with
    | some pts => pts.map (fun point =>
        let seconds := parseTimestampToSeconds point.time
        let seconds := match seconds with
          | some t => if segmentStart > 0 && decide (t < segmentStart)
                      then some (t + segmentStart) else some t
          | none => none
        { point with time := formatJ seconds })
    | none => []
  { videoTitle := title
    platform := platform
    score := args.score
    duration := none
    issues := correctedIssues
    marketing :=
      { overallScore := args.marketing.bind RawMarketing.overallScore
        hookScore := args.marketing.bind RawMarketing.hookScore
        hookFeedback := args.marketing.bind RawMarketing.hookFeedback
        ctaScore := args.marketing.bind RawMarketing.ctaScore
        ctaFeedback := args.marketing.bind RawMarketing.ctaFeedback
        retentionCurve := correctedRetention }
    platformFit := args.platformFit }

/-! ## JS `Map` deduplication and stable `Array.sort` -/

/-- One step of `new Map(entries)` construction (ES `Map.set`): if the
accumulated map already holds the key of `x`, the bound value is replaced
in place (the key keeps its first insertion position); otherwise the new
entry is appended. -/
def mapSet (key : α → JStr) (acc : List α) (x : α) : List α :=
  if acc.any (fun y => key y = key x) then
    acc.map (fun y => if key y = key x then x else y)
  else acc ++ [x]

/-- Model of `Array.from(new Map(l.map(item => [key(item), item])).values())`:
the entries are inserted left to right with `mapSet`, so the result holds,
for each key in order of first occurrence, the last element carrying it. -/
def jsMapValues (key : α → JStr) (l : List α) : List α :=
  l.foldl (mapSet key) []

/-- Stable insertion of `x` into `l`: `x` is placed before the first
element `y` with `le x y`; with a reflexive-on-equals `le` this realizes
the ES2019 stability requirement (an element never moves past an equal
one that preceded it). -/
def jsStableInsert (le : α → α → Bool) (x : α) : List α → List α
  | [] => [x]
  | y :: ys => if le x y then x :: y :: ys else y :: jsStableInsert le x ys

/-- Model of `Array.prototype.sort(comparator)` as a stable insertion
sort.  ES2019 requires sort to be stable, and for a consistent comparator
the stable sorted permutation is unique, so any stable sorting algorithm
is a faithful model. -/
def jsSort (le : α → α → Bool) : List α → List α
  | [] => []
  | x :: xs => jsStableInsert le x (jsSort le xs)

/-- The effective order of the comparator
`(a, b) => parseTimestampToSeconds(f(a)) - parseTimestampToSeconds(f(b))`:
`le a b` holds when the comparator result is `<= 0`, or when it is `NaN`
(either side failed to parse), which the ES `SortCompare` operation
converts to `+0`, i.e. "equal". -/
def timeLe (f : α → JStr) (a b : α) : Bool :=
  match parseTimestampToSeconds (f a), parseTimestampToSeconds (f b) with
  | some x, some y => x ≤ y
  | _, _ => true

/-- Dedup key of an issue as computed by the source: the string
concatenation `item.timestamp + item.description`. -/
def issueKey (i : Issue) : JStr := i.timestamp ++ i.description

/-- Dedup key of a retention point: `item.time`. -/
def pointKey (p : RetentionPoint) : JStr := p.time

/-- Model of `Math.round(a / b)` for integers with `b > 0`, computed
exactly: JS rounds half toward positive infinity, so
`Math.round(x) = Math.floor(x + 0.5)`, and
`⌊a/b + 1/2⌋ = ⌊(2a + b) / (2b)⌋`, a floor division of integers.
(`jsRoundDiv_eq` below proves the equality with the rational form.) -/
def jsRoundDiv (a b : Int) : Int := Int.fdiv (2 * a + b) (2 * b)

/-- Embedding of the retention-curve thinning step (lines 404-408): when
the combined curve exceeds 20 points, keep the points whose index is a
multiple of `step = Math.ceil(length / 20)` (for a natural `n`,
`Math.ceil(n / 20) = (n + 19) / 20` in integer division). -/
def downsampleCurve (curve : List RetentionPoint) : List RetentionPoint :=
  if 20 < curve.length then
    (curve.enum.filter (fun p => p.1 % ((curve.length + 19) / 20) = 0)).map Prod.snd
  else curve

/-! ## Result merger (`mergeAnalysisResults`, lines 375-426) -/

/-- Embedding of `mergeAnalysisResults`.  A single result is returned with
only its `duration` substituted.  Otherwise: issues are concatenated,
deduplicated through a JS `Map` keyed by `timestamp + description`, then
stable-sorted by parsed timestamp; `score` and `marketing.overallScore`
are averaged over the present numeric fields with `Math.round` (an empty
average is `NaN`, modelled `none`); the retention curve is concatenated,
stable-sorted by parsed time, deduplicated through a JS `Map` keyed by
`time`, and downsampled; hook fields come from the first result and CTA
fields from the last with the source's `|| 0` and `|| "..."` fallbacks;
`platformFit` is the first result's.  (On `[]` the source would crash
dereferencing `results[0]`; the model returns a default record — the
orchestrator never calls the merger with an empty list.) -/
def mergeAnalysisResults (results : List AnalysisResult) (duration : JStr) :
    AnalysisResult :=
  match results with
  | [] => { videoTitle := [], platform := [] }
  | [r] => { r with duration := some duration }
  | r₁ :: r₂ :: rest =>
    let rs := r₁ :: r₂ :: rest
    let first := r₁
    let last := rs.getLast (by simp)
    let allIssues := rs.flatMap (fun r => r.issues)
    let uniqueIssues := jsMapValues issueKey allIssues
    let uniqueIssues := jsSort (timeLe Issue.timestamp) uniqueIssues
    let validScores := rs.filterMap (fun r => r.score)
    let avgScore : Option Int :=
      if validScores = [] then none
      else some (jsRoundDiv validScores.sum (validScores.length : Int))
    let validMarketingScores := rs.filterMap (fun r => r.marketing.overallScore)
    let avgMarketingScore : Option Int :=
      if validMarketingScores = [] then none
      else some (jsRoundDiv validMarketingScores.sum (validMarketingScores.length : Int))
    let combinedCurve := rs.flatMap (fun r => r.marketing.retentionCurve)
    let combinedCurve := jsSort (timeLe RetentionPoint.time) combinedCurve
    let combinedCurve := jsMapValues pointKey combinedCurve
    let combinedCurve := downsampleCurve combinedCurve
    { videoTitle := first.videoTitle
      platform := first.platform
      score := avgScore
      duration := some duration
      issues := uniqueIssues
      marketing :=
        { overallScore := avgMarketingScore
          hookScore := some (jsOrZero first.marketing.hookScore)
          hookFeedback := some (match first.marketing.hookFeedback with
            | none => jstr "No hook data found"
            | some s => if s = [] then jstr "No hook data found" else s)
          ctaScore := some (jsOrZero last.marketing.ctaScore)
          ctaFeedback := some (match last.marketing.ctaFeedback with
            | none => jstr "No CTA data found"
            | some s => if s = [] then jstr "No CTA data found" else s)
          retentionCurve := combinedCurve }
      platformFit := first.platformFit }

/-! ## Segment planner and orchestrator (`runGeminiAnalysis`, lines 188-303) -/

/-- `Math.ceil` of the quotient of two integers, computed exactly:
for `b > 0`, `⌈a/b⌉ = -⌊(-a)/b⌋`, a floor division of integers.
(`jsCeilDiv_eq` below proves the equality with the rational form.) -/
def jsCeilDiv (a b : Int) : Int := -(Int.fdiv (-a) b)

/-- Embedding of the chunk count (line 203):
`durationSeconds > 0 ? Math.ceil(durationSeconds / chunkSeconds) : 1`. -/
def totalChunks (durationSeconds chunkSeconds : Int) : Int :=
  if durationSeconds > 0 then jsCeilDiv durationSeconds chunkSeconds else 1

/-- Embedding of the planned windows (lines 212-214): for chunk index `i`,
`startTime = i * chunkSeconds` and
`endTime = Math.min((i + 1) * chunkSeconds, durationSeconds)`. -/
def segmentWindows (durationSeconds chunkSeconds : Int) : List (Int × Int) :=
  (List.range (totalChunks durationSeconds chunkSeconds).toNat).map
    (fun (i : Nat) => ((i : Int) * chunkSeconds,
               min (((i : Int) + 1) * chunkSeconds) durationSeconds))

/-- The source's fixed window size: `CHUNK_SIZE_MINUTES * 60 = 1200`
seconds. -/
def chunkSecondsConst : Int := 20 * 60

/-- Embedding of the accumulation-and-merge tail of `runGeminiAnalysis`
(lines 210-302) with the external model call abstracted away: each window
contributes either a parsed segment result (`some r`) or a caught
per-segment failure (`none`, the `catch` branch that merely reports and
continues).  After the loop, an empty accumulator raises the fatal
`"Analysis failed to produce any results."` error (lines 297-299);
otherwise the results are merged. -/
def runAnalysisOutcomes (outcomes : List (Option AnalysisResult))
    (duration : JStr) : Except JStr AnalysisResult :=
  let results := outcomes.filterMap id
  if results.length = 0 then
    Except.error (jstr "Analysis failed to produce any results.")
  else
    Except.ok (mergeAnalysisResults results duration)

/-! ## Proof-scaffolding definitions -/

/-- Parsed timestamp value with `NaN` defaulted to `0`; used only to state
sortedness, always under a hypothesis that the timestamp parses. -/
def tsVal (l : JStr) : Int := (parseTimestampToSeconds l).getD 0

/-- Recursive characterization of `jsMapValues` (proved equal below): the
first element of each key group is replaced by the last element of that
group, and later occurrences of the key are dropped. -/
def dedupRec (key : α → JStr) : List α → List α
  | [] => []
  | x :: xs =>
    List.getLastD (xs.filter (fun y => key y = key x)) x ::
      dedupRec key (xs.filter (fun y => !(decide (key y = key x))))
termination_by l => l.length
decreasing_by
  exact Nat.lt_succ_of_le (List.length_filter_le _ _)

/-- First-occurrence-wins deduplication, used to render the claim text
"keeping the first occurrence of each key" (the behaviour the source does
NOT have); `seen` accumulates the keys already emitted. -/
def firstWinsAux (key : α → β) [DecidableEq β] (seen : List β) : List α → List α
  | [] => []
  | x :: xs =>
    if key x ∈ seen then firstWinsAux key seen xs
    else x :: firstWinsAux key (key x :: seen) xs

/-- First-occurrence-wins deduplication by an arbitrary key. -/
def firstWinsDedup (key : α → β) [DecidableEq β] (l : List α) : List α :=
  firstWinsAux key [] l

/-- Modelled from the claim's words, for comparison with the source (C2):
"the merged report's issues are the concatenation of all segments' issues
deduplicated by the key (timestamp, description) keeping the first
occurrence of each key, then sorted ascending by parsed timestamp
seconds". -/
def claimIssueMerge (results : List AnalysisResult) : List Issue :=
  jsSort (timeLe Issue.timestamp)
    (firstWinsDedup (fun i => (i.timestamp, i.description))
      (results.flatMap (fun r => r.issues)))

/-- Modelled from the claim's words, for comparison with the source (C7):
"the merged curve is the concatenation of all segments' retention points
deduplicated by timestamp with the first occurrence winning and sorted
ascending by parsed timestamp", followed by the same downsampling step. -/
def claimCurveMerge (results : List AnalysisResult) : List RetentionPoint :=
  downsampleCurve
    (jsSort (timeLe RetentionPoint.time)
      (firstWinsDedup (fun p => p.time)
        (results.flatMap (fun r => r.marketing.retentionCurve))))

/-- The per-timestamp correction-and-reserialization step applied by
`parseResponseArgs` to every issue timestamp and retention-point time:
parse, conditionally offset by the window start, and re-serialize through
the canonical formatter. -/
def correctTimestamp (segmentStart : Int) (raw : JStr) : JStr :=
  formatJ (match parseTimestampToSeconds raw with
    | some t => if segmentStart > 0 && decide (t < segmentStart)
                then some (t + segmentStart) else some t
    | none => none)

/-! ## Concrete fixtures for witnesses and counterexamples -/

/-- An issue at 10 seconds reported with severity "major". -/
def issueMajor : Issue :=
  { timestamp := jstr "00:10", issueType := jstr "spelling",
    severity := jstr "major", description := jstr "typo" }

/-- The same `(timestamp, description)` dedup key as `issueMajor`, but
severity "minor": distinguishes first-wins from last-wins deduplication. -/
def issueMinor : Issue := { issueMajor with severity := jstr "minor" }

/-- A retention point at 10 seconds with value 50. -/
def pointA : RetentionPoint := { time := jstr "00:10", value := some 50 }

/-- Same time key as `pointA`, value 80: distinguishes first-wins from
last-wins deduplication. -/
def pointB : RetentionPoint := { time := jstr "00:10", value := some 80 }

/-- First fixture segment result: score 80, overallScore 70, one issue,
one retention point. -/
def segA : AnalysisResult :=
  { videoTitle := jstr "T", platform := jstr "YouTube", score := some 80,
    issues := [issueMajor],
    marketing := { overallScore := some 70, hookScore := some 8,
                   retentionCurve := [pointA] } }

/-- Second fixture segment result: score 91, overallScore 75, and issue /
point fixtures sharing the dedup keys of `segA`'s. -/
def segB : AnalysisResult :=
  { videoTitle := jstr "T", platform := jstr "YouTube", score := some 91,
    issues := [issueMinor],
    marketing := { overallScore := some 75, ctaScore := some 6,
                   retentionCurve := [pointB] } }

/-- Raw reply fixture for a segment starting at 1200 s: one window-relative
issue timestamp ("00:30") and one absolute one ("25:00"), plus a
window-relative retention point. -/
def rawArgsSeg : RawArgs :=
  { score := some 77,
    issues := some
      [{ issueMajor with timestamp := jstr "00:30" },
       { issueMajor with timestamp := jstr "25:00" }],
    marketing := some { overallScore := some 70, hookScore := some 8,
                        retentionCurve := some [{ time := jstr "00:30", value := some 60 }] } }

/-- Raw reply fixture for the first segment (start 0): a raw-seconds
timestamp "90s" that must be re-serialized to "01:30" without offset. -/
def rawArgsFirst : RawArgs :=
  { score := some 90,
    issues := some [{ issueMajor with timestamp := jstr "90s" }],
    marketing := some { overallScore := some 80, hookScore := some 9,
                        retentionCurve := some [] } }

/-! ## Helper lemmas: exact rounding -/

/-- `jsRoundDiv` is `Math.round` of the exact quotient. -/
lemma jsRoundDiv_eq (a : Int) {b : Int} (hb : 0 < b) :
    jsRoundDiv a b = ⌊(a : ℚ) / (b : ℚ) + 1 / 2⌋ := by
  have hb0 : (0 : Int) ≤ 2 * b := by omega
  have hc : (((2 * b).toNat : ℕ) : ℚ) = ((2 * b : Int) : ℚ) := by
    exact_mod_cast congrArg (fun z : Int => (z : ℚ)) (Int.toNat_of_nonneg hb0)
  have h1 : Int.fdiv (2 * a + b) (2 * b) = (2 * a + b) / (2 * b) := Int.fdiv_eq_ediv _ hb0
  have hbq : (b : ℚ) ≠ 0 := by exact_mod_cast ne_of_gt hb
  have h3 : (a : ℚ) / (b : ℚ) + 1 / 2 = (((2 * a + b : Int)) : ℚ) / ((((2 * b).toNat : ℕ)) : ℚ) := by
    rw [hc]; push_cast; field_simp; ring
  rw [jsRoundDiv, h1, h3, Rat.floor_intCast_div_natCast]
  rw [Int.toNat_of_nonneg hb0]

/-- `jsCeilDiv` is `Math.ceil` of the exact quotient. -/
lemma jsCeilDiv_eq (a : Int) {b : Int} (hb : 0 < b) :
    jsCeilDiv a b = ⌈(a : ℚ) / (b : ℚ)⌉ := by
  have hb0 : (0 : Int) ≤ b := le_of_lt hb
  have hc : ((b.toNat : ℕ) : ℚ) = (b : ℚ) := by
    exact_mod_cast congrArg (fun z : Int => (z : ℚ)) (Int.toNat_of_nonneg hb0)
  have h1 : Int.fdiv (-a) b = (-a) / b := Int.fdiv_eq_ediv _ hb0
  have h2 : ⌈(a : ℚ) / (b : ℚ)⌉ = -⌊-((a : ℚ) / (b : ℚ))⌋ := rfl
  have h3 : -((a : ℚ) / (b : ℚ)) = ((-a : Int) : ℚ) / (((b.toNat : ℕ) : ℚ)) := by
    rw [hc]; push_cast; ring
  rw [jsCeilDiv, h1, h2, h3, Rat.floor_intCast_div_natCast]
  rw [Int.toNat_of_nonneg hb0]

/-! ## Helper lemmas: timestamp codec -/

lemma jsSplit_ne_nil (sep : Char) (l : List Char) : jsSplit sep l ≠ [] := by
  induction l with
  | nil => simp [jsSplit]
  | cons c rest ih =>
    simp only [jsSplit]
    split
    · simp
    · cases h : jsSplit sep rest with
      | nil => simp
      | cons g gs => simp

lemma jsSplit_no_sep {sep : Char} {l : List Char} (h : sep ∉ l) : jsSplit sep l = [l] := by
  induction l with
  | nil => rfl
  | cons c rest ih =>
    have hc : ¬(c = sep) := fun hcc => h (hcc ▸ List.mem_cons_self c rest)
    have hr : sep ∉ rest := fun hm => h (List.mem_cons_of_mem c hm)
    simp only [jsSplit, if_neg hc, ih hr]

lemma jsSplit_append {sep : Char} {a : List Char} (ha : sep ∉ a) (r : List Char) :
    jsSplit sep (a ++ sep :: r) = a :: jsSplit sep r := by
  induction a with
  | nil => simp [jsSplit]
  | cons c cs ih =>
    have hc : ¬(c = sep) := fun hcc => ha (hcc ▸ List.mem_cons_self c cs)
    have hcs : sep ∉ cs := fun hm => ha (List.mem_cons_of_mem c hm)
    simp only [List.cons_append, jsSplit, if_neg hc]
    rw [List.append_eq, ih hcs]

lemma parseTimestamp_two {A B : List Char} (hA : ':' ∉ A) (hB : ':' ∉ B) :
    parseTimestampToSeconds (A ++ ':' :: B) =
      jnumAdd (jnumMul (parseIntChars A) 60) (parseIntChars B) := by
  have hne : ¬(A ++ ':' :: B = []) := by simp
  have hinc : jsIncludes (A ++ ':' :: B) ':' = true := by
    simp [jsIncludes, List.contains_eq_any_beq, List.any_eq_true]
  unfold parseTimestampToSeconds
  rw [if_neg hne, hinc]
  simp only [Bool.not_true, Bool.and_false, Bool.false_eq_true, if_false]
  rw [jsSplit_append hA, jsSplit_no_sep hB]
  simp [List.map]

lemma parseTimestamp_three {A B C : List Char} (hA : ':' ∉ A) (hB : ':' ∉ B) (hC : ':' ∉ C) :
    parseTimestampToSeconds (A ++ ':' :: (B ++ ':' :: C)) =
      jnumAdd (jnumAdd (jnumMul (parseIntChars A) 3600) (jnumMul (parseIntChars B) 60))
        (parseIntChars C) := by
  have hne : ¬(A ++ ':' :: (B ++ ':' :: C) = []) := by simp
  have hinc : jsIncludes (A ++ ':' :: (B ++ ':' :: C)) ':' = true := by
    simp [jsIncludes, List.contains_eq_any_beq, List.any_eq_true]
  unfold parseTimestampToSeconds
  rw [if_neg hne, hinc]
  simp only [Bool.not_true, Bool.and_false, Bool.false_eq_true, if_false]
  rw [jsSplit_append hA, jsSplit_append hB, jsSplit_no_sep hC]
  simp [List.map]

lemma padDigits_ok : ∀ n : Nat, n < 100 →
    parseIntChars (padTwo (Nat.toDigits 10 n)) = some (n : Int) ∧
      ':' ∉ padTwo (Nat.toDigits 10 n) := by decide

lemma intToChars_natCast (m : Nat) : intToChars (m : Int) = Nat.toDigits 10 m := by
  unfold intToChars
  rw [if_neg (by exact_mod_cast Int.not_lt.mpr (Int.natCast_nonneg m))]
  simp

lemma fdiv_natCast (m n : Nat) : Int.fdiv (m : Int) (n : Int) = ((m / n : Nat) : Int) :=
  (Int.ofNat_fdiv m n).symm
lemma tmod_natCast (m n : Nat) : Int.tmod (m : Int) (n : Int) = ((m % n : Nat) : Int) := rfl

lemma format_natCast (s : Nat) :
    formatSecondsToTimestamp (s : Int) =
      if 0 < s / 3600 then
        padTwo (Nat.toDigits 10 (s / 3600)) ++
          ':' :: (padTwo (Nat.toDigits 10 (s % 3600 / 60)) ++ ':' :: padTwo (Nat.toDigits 10 (s % 60)))
      else
        padTwo (Nat.toDigits 10 (s % 3600 / 60)) ++ ':' :: padTwo (Nat.toDigits 10 (s % 60)) := by
  unfold formatSecondsToTimestamp
  have e1 : Int.fdiv (s : Int) (3600 : Int) = ((s / 3600 : Nat) : Int) := fdiv_natCast s 3600
  have e2 : Int.tmod (s : Int) (3600 : Int) = ((s % 3600 : Nat) : Int) := tmod_natCast s 3600
  have e3 : Int.tmod (s : Int) (60 : Int) = ((s % 60 : Nat) : Int) := tmod_natCast s 60
  rw [e1, e2, e3]
  have e4 : Int.fdiv ((s % 3600 : Nat) : Int) (60 : Int) = ((s % 3600 / 60 : Nat) : Int) :=
    fdiv_natCast (s % 3600) 60
  rw [e4]
  have hcond : (((s / 3600 : Nat) : Int) > 0) ↔ 0 < s / 3600 := by exact_mod_cast Iff.rfl
  by_cases h : 0 < s / 3600
  · rw [if_pos (hcond.mpr h), if_pos h, intToChars_natCast, intToChars_natCast, intToChars_natCast]
  · rw [if_neg (fun hh => h (hcond.mp hh)), if_neg h, intToChars_natCast, intToChars_natCast]

lemma parse_format_roundtrip (s : Nat) (hs : s < 86400) :
    parseTimestampToSeconds (formatSecondsToTimestamp (s : Int)) = some (s : Int) := by
  rw [format_natCast]
  have hm : s % 3600 / 60 < 100 := by omega
  have hs60 : s % 60 < 100 := by omega
  obtain ⟨pm, nm⟩ := padDigits_ok _ hm
  obtain ⟨ps, ns⟩ := padDigits_ok _ hs60
  by_cases h : 0 < s / 3600
  · have hh : s / 3600 < 100 := by omega
    obtain ⟨ph, nh⟩ := padDigits_ok _ hh
    rw [if_pos h, parseTimestamp_three nh nm ns, ph, pm, ps]
    simp only [jnumMul, jnumAdd, Option.map]
    have : s / 3600 * 3600 + s % 3600 / 60 * 60 + s % 60 = s := by omega
    have h2 : ((s / 3600 : Nat) : Int) * 3600 + ((s % 3600 / 60 : Nat) : Int) * 60 +
        ((s % 60 : Nat) : Int) = ((s : Nat) : Int) := by exact_mod_cast this
    rw [show ((s / 3600 : Nat) : Int) * 3600 + ((s % 3600 / 60 : Nat) : Int) * 60 +
        ((s % 60 : Nat) : Int) = (((s / 3600 : Nat) : Int) * 3600 +
        ((s % 3600 / 60 : Nat) : Int) * 60) + ((s % 60 : Nat) : Int) from by ring] at h2
    rw [h2]
  · rw [if_neg h, parseTimestamp_two nm ns, pm, ps]
    simp only [jnumMul, jnumAdd, Option.map]
    have : s % 3600 / 60 * 60 + s % 60 = s := by omega
    have h2 : ((s % 3600 / 60 : Nat) : Int) * 60 + ((s % 60 : Nat) : Int) = ((s : Nat) : Int) := by
      exact_mod_cast this
    rw [h2]

/-! ## Helper lemmas: JS Map deduplication and stable sort -/

lemma key_mapSetFun (key : α → JStr) (x y : α) :
    key (if key y = key x then x else y) = key y := by
  split
  · next h => rw [← h]
  · rfl

lemma any_map_key (key : α → JStr) (x z : α) (acc : List α) :
    ((acc.map (fun y => if key y = key x then x else y)).any (fun y => key y = key z)) =
      (acc.any (fun y => key y = key z)) := by
  induction acc with
  | nil => rfl
  | cons a as ih =>
    simp only [List.map_cons, List.any_cons, ih]
    rw [key_mapSetFun key x a]

lemma mapSet_eq_map {key : α → JStr} {acc : List α} {x : α}
    (h : acc.any (fun y => key y = key x) = true) :
    mapSet key acc x = acc.map (fun y => if key y = key x then x else y) := by
  simp only [mapSet, h, if_true]

lemma mapSet_eq_append {key : α → JStr} {acc : List α} {x : α}
    (h : acc.any (fun y => key y = key x) = false) :
    mapSet key acc x = acc ++ [x] := by
  simp only [mapSet, h, Bool.false_eq_true, if_false]

lemma mapSet_pairwise (key : α → JStr) {acc : List α} (x : α)
    (h : List.Pairwise (fun a b => key a ≠ key b) acc) :
    List.Pairwise (fun a b => key a ≠ key b) (mapSet key acc x) := by
  unfold mapSet
  split
  · next hany =>
    rw [List.pairwise_map]
    refine h.imp ?_
    intro a b hab
    rw [key_mapSetFun key x a, key_mapSetFun key x b]
    exact hab
  · next hany =>
    rw [List.pairwise_append]
    refine ⟨h, List.pairwise_singleton _ _, ?_⟩
    have hf : ∀ a ∈ acc, key a ≠ key x := by
      intro a ha hk
      exact hany (List.any_eq_true.mpr ⟨a, ha, by simp [hk]⟩)
    intro a ha b hb
    rw [List.mem_singleton] at hb
    subst hb
    exact hf a ha


lemma foldl_mapSet_eq (key : α → JStr) :
    ∀ (l acc : List α), List.Pairwise (fun a b => key a ≠ key b) acc →
      l.foldl (mapSet key) acc =
        acc.map (fun a => List.getLastD (l.filter (fun y => key y = key a)) a) ++
          dedupRec key (l.filter (fun x => !(acc.any (fun y => key y = key x)))) := by
  intro l
  induction l with
  | nil =>
    intro acc _
    simp [dedupRec]
  | cons x xs ih =>
    intro acc hacc
    rw [List.foldl_cons]
    rcases hany : acc.any (fun y => key y = key x) with _ | _
    · -- the key of x is new: mapSet appends x
      have hpair : List.Pairwise (fun a b => key a ≠ key b) (acc ++ [x]) := by
        rw [← mapSet_eq_append hany]
        exact mapSet_pairwise key x hacc
      have hf : ∀ a ∈ acc, ¬(key a = key x) := by
        intro a ha hk
        have : acc.any (fun y => key y = key x) = true :=
          List.any_eq_true.mpr ⟨a, ha, by simp [hk]⟩
        rw [this] at hany
        cases hany
      rw [mapSet_eq_append hany, ih _ hpair]
      rw [List.filter_cons_of_pos (by simp [hany]), dedupRec]
      have hB1 : (xs.filter (fun z => !(acc.any (fun y => key y = key z)))).filter
            (fun y => key y = key x) = xs.filter (fun y => key y = key x) := by
        rw [List.filter_filter]
        apply List.filter_congr
        intro z _
        by_cases hk : key z = key x
        · simp [hk, hany]
        · simp [hk]
      have hB2 : (xs.filter (fun z => !(acc.any (fun y => key y = key z)))).filter
            (fun y => !(decide (key y = key x))) =
          xs.filter (fun z => !((acc ++ [x]).any (fun y => key y = key z))) := by
        rw [List.filter_filter]
        apply List.filter_congr
        intro z _
        simp only [List.any_append, List.any_cons, List.any_nil, Bool.or_false, Bool.not_or]
        rw [Bool.and_comm]
        congr 1
        simp [eq_comm]
      have hmap : acc.map (fun a => List.getLastD ((x :: xs).filter (fun y => key y = key a)) a) =
          acc.map (fun a => List.getLastD (xs.filter (fun y => key y = key a)) a) := by
        apply List.map_congr_left
        intro a ha
        have hxa : ¬(key x = key a) := fun h => hf a ha (Eq.symm h)
        simp [List.filter_cons, hxa]
      rw [hmap, hB1, hB2, List.map_append]
      simp [List.append_assoc]
    · -- the key of x is already present: mapSet overwrites in place
      have hpair : List.Pairwise (fun a b => key a ≠ key b)
          (acc.map (fun y => if key y = key x then x else y)) := by
        rw [← mapSet_eq_map hany]
        exact mapSet_pairwise key x hacc
      rw [mapSet_eq_map hany, ih _ hpair]
      have hA1 : xs.filter (fun z =>
            !((acc.map (fun y => if key y = key x then x else y)).any (fun y => key y = key z))) =
          xs.filter (fun z => !(acc.any (fun y => key y = key z))) := by
        apply List.filter_congr
        intro z _
        rw [any_map_key]
      have hA2 : (x :: xs).filter (fun z => !(acc.any (fun y => key y = key z))) =
          xs.filter (fun z => !(acc.any (fun y => key y = key z))) := by
        rw [List.filter_cons_of_neg (by simp [hany])]
      have hA3 : (acc.map (fun y => if key y = key x then x else y)).map
            (fun a => List.getLastD (xs.filter (fun y => key y = key a)) a) =
          acc.map (fun a => List.getLastD ((x :: xs).filter (fun y => key y = key a)) a) := by
        rw [List.map_map]
        apply List.map_congr_left
        intro a _
        simp only [Function.comp]
        by_cases hk : key a = key x
        · have hia : (if key a = key x then x else a) = x := if_pos hk
          simp only [key_mapSetFun key x a]
          rw [hia, List.filter_cons_of_pos (by simp [hk]), List.getLastD_cons]
        · have hia : (if key a = key x then x else a) = a := if_neg hk
          simp only [key_mapSetFun key x a]
          have hxa : ¬(key x = key a) := fun h => hk (Eq.symm h)
          rw [hia]
          simp [List.filter_cons, hxa]
      rw [hA1, hA2, hA3]

lemma jsMapValues_eq_dedupRec (key : α → JStr) (l : List α) :
    jsMapValues key l = dedupRec key l := by
  have h := foldl_mapSet_eq key l [] List.Pairwise.nil
  simpa [jsMapValues] using h

lemma getLastD_mem_cons : ∀ (l : List α) (d : α), List.getLastD l d ∈ d :: l := by
  intro l
  induction l with
  | nil => intro d; simp
  | cons a t ih =>
    intro d
    rw [List.getLastD_cons]
    exact List.mem_cons_of_mem d (ih a)

lemma mem_dedupRec {key : α → JStr} : ∀ {l : List α} {x : α}, x ∈ dedupRec key l → x ∈ l := by
  intro l
  induction l using dedupRec.induct key with
  | case1 => intro x h; simp [dedupRec] at h
  | case2 y ys ih =>
    intro x h
    rw [dedupRec] at h
    rcases List.mem_cons.mp h with h1 | h1
    · subst h1
      rcases List.mem_cons.mp (getLastD_mem_cons (ys.filter (fun z => key z = key y)) y) with h2 | h2
      · rw [h2]
        exact List.mem_cons_self y ys
      · exact List.mem_cons_of_mem _ (List.mem_of_mem_filter h2)
    · exact List.mem_cons_of_mem _ (List.mem_of_mem_filter (ih h1))

lemma key_getLastD_filter (key : α → JStr) (ys : List α) (y : α) :
    key ((ys.filter (fun z => key z = key y)).getLastD y) = key y := by
  rcases List.mem_cons.mp (getLastD_mem_cons (ys.filter (fun z => key z = key y)) y) with h | h
  · rw [h]
  · exact of_decide_eq_true (List.mem_filter.mp h).2

lemma dedupRec_pairwise_keys (key : α → JStr) :
    ∀ l : List α, List.Pairwise (fun a b => key a ≠ key b) (dedupRec key l) := by
  intro l
  induction l using dedupRec.induct key with
  | case1 => simp [dedupRec]
  | case2 y ys ih =>
    rw [dedupRec, List.pairwise_cons]
    constructor
    · intro b hb
      have hbf := mem_dedupRec hb
      have hbney : ¬(key b = key y) := by
        have := (List.mem_filter.mp hbf).2
        simpa using this
      rw [key_getLastD_filter key ys y]
      exact fun h => hbney h.symm
    · exact ih

lemma dedupRec_keys_complete (key : α → JStr) :
    ∀ (l : List α) (x : α), x ∈ l → ∃ u ∈ dedupRec key l, key u = key x := by
  intro l
  induction l using dedupRec.induct key with
  | case1 => intro x h; cases h
  | case2 y ys ih =>
    intro x hx
    by_cases hk : key x = key y
    · refine ⟨(ys.filter (fun z => key z = key y)).getLastD y, ?_, ?_⟩
      · rw [dedupRec]
        exact List.mem_cons_self _ _
      · rw [key_getLastD_filter key ys y, hk]
    · rcases List.mem_cons.mp hx with h1 | h1
      · exact absurd (congrArg key h1) hk
      · have hxf : x ∈ ys.filter (fun z => !(decide (key z = key y))) := by
          rw [List.mem_filter]
          exact ⟨h1, by simpa using hk⟩
        rcases ih x hxf with ⟨u, hu, hku⟩
        refine ⟨u, ?_, hku⟩
        rw [dedupRec]
        exact List.mem_cons_of_mem _ hu

lemma getLast?_cons_eq_getLastD (y : α) : ∀ (L : List α), (y :: L).getLast? = some (L.getLastD y) := by
  intro L
  induction L generalizing y with
  | nil => rfl
  | cons a t ih =>
    rw [List.getLastD_cons]
    rw [← ih a]
    rfl

lemma dedupRec_lastWins (key : α → JStr) :
    ∀ (l : List α), ∀ x ∈ dedupRec key l,
      (l.filter (fun y => key y = key x)).getLast? = some x := by
  intro l
  induction l using dedupRec.induct key with
  | case1 => intro x h; simp [dedupRec] at h
  | case2 y ys ih =>
    intro x hx
    rw [dedupRec] at hx
    rcases List.mem_cons.mp hx with h1 | h1
    · -- x is the representative of the key group of y
      have hkx : key x = key y := by rw [h1]; exact key_getLastD_filter key ys y
      have hfil : (y :: ys).filter (fun z => key z = key x) =
          y :: ys.filter (fun z => key z = key y) := by
        rw [List.filter_cons_of_pos (by simp [hkx])]
        congr 1
        apply List.filter_congr
        intro z _
        simp [hkx]
      rw [hfil, getLast?_cons_eq_getLastD, h1]
    · -- x survives from the filtered tail
      have hxf := mem_dedupRec h1
      have hkxy : ¬(key x = key y) := by
        have := (List.mem_filter.mp hxf).2
        simpa using this
      have hfil : (y :: ys).filter (fun z => key z = key x) =
          ys.filter (fun z => key z = key x) := by
        rw [List.filter_cons_of_neg (by simp; exact fun h => hkxy h.symm)]
      have hfil2 : (ys.filter (fun z => !(decide (key z = key y)))).filter
            (fun z => key z = key x) = ys.filter (fun z => key z = key x) := by
        rw [List.filter_filter]
        apply List.filter_congr
        intro z _
        by_cases hz : key z = key x
        · simp [hz, hkxy]
        · simp [hz]
      rw [hfil, ← hfil2]
      exact ih x h1

lemma dedupRec_pairwise_of (key : α → JStr) (val : α → Int)
    (hkv : ∀ a b, key a = key b → val a = val b) :
    ∀ l : List α, List.Pairwise (fun a b => val a ≤ val b) l →
      List.Pairwise (fun a b => val a ≤ val b) (dedupRec key l) := by
  intro l
  induction l using dedupRec.induct key with
  | case1 => intro _; simp [dedupRec]
  | case2 y ys ih =>
    intro hpw
    have hpc := List.pairwise_cons.mp hpw
    rw [dedupRec, List.pairwise_cons]
    constructor
    · intro b hb
      have hvy : val ((ys.filter (fun z => key z = key y)).getLastD y) = val y :=
        hkv _ _ (key_getLastD_filter key ys y)
      rw [hvy]
      exact hpc.1 b (List.mem_of_mem_filter (mem_dedupRec hb))
    · exact ih (List.Pairwise.filter _ hpc.2)

lemma mem_jsStableInsert (le : α → α → Bool) (x a : α) :
    ∀ l : List α, a ∈ jsStableInsert le x l ↔ a = x ∨ a ∈ l := by
  intro l
  induction l with
  | nil => simp [jsStableInsert]
  | cons y ys ih =>
    rw [jsStableInsert]
    split
    · simp
    · rw [List.mem_cons, ih, List.mem_cons]
      tauto

lemma jsStableInsert_perm (le : α → α → Bool) (x : α) :
    ∀ l : List α, (jsStableInsert le x l).Perm (x :: l) := by
  intro l
  induction l with
  | nil => simp [jsStableInsert]
  | cons y ys ih =>
    rw [jsStableInsert]
    split
    · exact List.Perm.refl _
    · exact (List.Perm.cons y ih).trans (List.Perm.swap x y ys)

lemma jsSort_perm (le : α → α → Bool) : ∀ l : List α, (jsSort le l).Perm l := by
  intro l
  induction l with
  | nil => simp [jsSort]
  | cons x xs ih =>
    rw [jsSort]
    exact (jsStableInsert_perm le x (jsSort le xs)).trans (List.Perm.cons x ih)

lemma pairwise_jsStableInsert (val : α → Int) (le : α → α → Bool) (x : α) :
    ∀ l : List α, (∀ b ∈ l, (le x b = true ↔ val x ≤ val b)) →
      List.Pairwise (fun a b => val a ≤ val b) l →
      List.Pairwise (fun a b => val a ≤ val b) (jsStableInsert le x l) := by
  intro l
  induction l with
  | nil => intro _ _; simp [jsStableInsert]
  | cons y ys ih =>
    intro hx hpw
    have hpc := List.pairwise_cons.mp hpw
    rw [jsStableInsert]
    split
    · next hxy =>
      rw [List.pairwise_cons]
      refine ⟨?_, hpw⟩
      intro b hb
      have hxley : val x ≤ val y := (hx y (List.mem_cons_self y ys)).mp hxy
      rcases List.mem_cons.mp hb with h1 | h1
      · rw [h1]; exact hxley
      · exact le_trans hxley (hpc.1 b h1)
    · next hxy =>
      have hylex : val y ≤ val x := by
        have := (hx y (List.mem_cons_self y ys)).not.mp (by simpa using hxy)
        omega
      rw [List.pairwise_cons]
      constructor
      · intro b hb
        rcases (mem_jsStableInsert le x b ys).mp hb with h1 | h1
        · rw [h1]; exact hylex
        · exact hpc.1 b h1
      · exact ih (fun b hb => hx b (List.mem_cons_of_mem y hb)) hpc.2

lemma pairwise_jsSort (val : α → Int) (le : α → α → Bool) :
    ∀ l : List α, (∀ a ∈ l, ∀ b ∈ l, (le a b = true ↔ val a ≤ val b)) →
      List.Pairwise (fun a b => val a ≤ val b) (jsSort le l) := by
  intro l
  induction l with
  | nil => intro _; simp [jsSort]
  | cons x xs ih =>
    intro hle
    rw [jsSort]
    apply pairwise_jsStableInsert
    · intro b hb
      have hbxs : b ∈ xs := (jsSort_perm le xs).mem_iff.mp hb
      exact hle x (List.mem_cons_self x xs) b (List.mem_cons_of_mem x hbxs)
    · exact ih (fun a ha b hb =>
        hle a (List.mem_cons_of_mem x ha) b (List.mem_cons_of_mem x hb))

lemma timeLe_iff {f : α → JStr} {a b : α}
    (ha : (parseTimestampToSeconds (f a)).isSome)
    (hb : (parseTimestampToSeconds (f b)).isSome) :
    (timeLe f a b = true ↔ tsVal (f a) ≤ tsVal (f b)) := by
  rcases hx : parseTimestampToSeconds (f a) with _ | x
  · rw [hx] at ha; cases ha
  · rcases hy : parseTimestampToSeconds (f b) with _ | y
    · rw [hy] at hb; cases hb
    · simp [timeLe, tsVal, hx, hy]

lemma downsampleCurve_sublist (l : List RetentionPoint) : (downsampleCurve l).Sublist l := by
  unfold downsampleCurve
  split
  · have h1 : ((l.enum.filter (fun p => p.1 % ((l.length + 19) / 20) = 0)).map Prod.snd).Sublist
        (l.enum.map Prod.snd) := List.Sublist.map _ (List.filter_sublist _)
    rw [List.enum_map_snd] at h1
    exact h1
  · exact List.Sublist.refl l

lemma downsampleCurve_head (l : List RetentionPoint) (x : RetentionPoint)
    (h : l.head? = some x) : (downsampleCurve l).head? = some x := by
  unfold downsampleCurve
  split
  · cases l with
    | nil => cases h
    | cons a t =>
      have hax : a = x := by simpa using h
      subst hax
      rw [List.enum_cons]
      rw [List.filter_cons_of_pos (by simp)]
      rfl
  · exact h

lemma length_filter_enumFrom_mod (s : Nat) :
    ∀ (l : List RetentionPoint) (k : Nat),
      ((List.enumFrom k l).filter (fun p => p.1 % s = 0)).length =
        ((List.range' k l.length).filter (fun i => i % s = 0)).length := by
  intro l
  induction l with
  | nil => intro k; rfl
  | cons a t ih =>
    intro k
    rw [show List.enumFrom k (a :: t) = (k, a) :: List.enumFrom (k + 1) t from rfl]
    rw [show List.range' k (a :: t).length = k :: List.range' (k + 1) t.length from rfl]
    rw [List.filter_cons, List.filter_cons]
    by_cases hk : k % s = 0
    · simp only [hk]
      simp [ih]
    · simp only [hk]
      simp [ih, hk]

lemma length_filter_range_mod (s : Nat) (hs : 0 < s) :
    ∀ n : Nat, ((List.range n).filter (fun i => i % s = 0)).length = (n + s - 1) / s := by
  intro n
  induction n with
  | zero => simp [Nat.div_eq_of_lt (by omega : s - 1 < s)]
  | succ n ih =>
    rw [List.range_succ, List.filter_append, List.length_append, ih]
    have hq := Nat.div_add_mod n s
    by_cases hr : n % s = 0
    · have e1 : n + 1 + s - 1 = s * (n / s) + s := by omega
      have e2 : n + s - 1 = s * (n / s) + (s - 1) := by omega
      rw [e1, e2, Nat.mul_add_div hs, Nat.mul_add_div hs,
        Nat.div_eq_of_lt (by omega : s - 1 < s), Nat.div_self hs]
      simp [hr]
    · have hlt : n % s < s := Nat.mod_lt n hs
      have e1 : n + 1 + s - 1 = s * (n / s) + (n % s + s) := by omega
      have e2 : n + s - 1 = s * (n / s) + (n % s - 1 + s) := by omega
      rw [e1, e2, Nat.mul_add_div hs, Nat.mul_add_div hs,
        Nat.add_div_right _ hs, Nat.add_div_right _ hs,
        Nat.div_eq_of_lt (by omega : n % s < s),
        Nat.div_eq_of_lt (by omega : n % s - 1 < s)]
      simp [hr]

lemma downsampleCurve_length_le (l : List RetentionPoint) :
    (downsampleCurve l).length ≤ 20 := by
  unfold downsampleCurve
  split
  · next h20 =>
    rw [List.length_map]
    have hs : 0 < (l.length + 19) / 20 := by omega
    have he : l.enum = List.enumFrom 0 l := rfl
    have hr : List.range' 0 l.length = List.range l.length := (List.range_eq_range' l.length).symm
    rw [he, length_filter_enumFrom_mod _ l 0, hr, length_filter_range_mod _ hs]
    have hle : l.length ≤ 20 * ((l.length + 19) / 20) := by omega
    have := (Nat.div_lt_iff_lt_mul hs).mpr
      (show l.length + (l.length + 19) / 20 - 1 < 21 * ((l.length + 19) / 20) by omega)
    omega
  · next h20 => omega

/-! ## Claim theorems -/

/-- C3 counterexample: the claim that every malformed input yields exactly 0
fails: "ab:cd" yields NaN (the two NaN parts are combined arithmetically),
and "1:2:3:4" falls back to parseInt of the whole string, which reads the
leading digit 1. -/
theorem C3_counterexample :
    ¬(parseTimestampToSeconds (jstr "ab:cd") = some 0 ∧
      parseTimestampToSeconds (jstr "1:2:3:4") = some 0) := by decide

/-- C3 amended: parseTimestampToSeconds is a total function (it never
raises); the empty string and a colon-free non-numeric string return 0, but
part-wise non-numeric input such as "ab:cd" yields NaN, and an unexpected
part count such as "1:2:3:4" yields parseInt of the whole string, here 1. -/
theorem C3_malformed_inputs :
    parseTimestampToSeconds (jstr "") = some 0 ∧
    parseTimestampToSeconds (jstr "abc") = some 0 ∧
    parseTimestampToSeconds (jstr "ab:cd") = none ∧
    parseTimestampToSeconds (jstr "1:2:3:4") = some 1 := by decide

/-- C9: merging a single-element result list returns that result with every
field unchanged except duration, which is replaced by the
orchestration-supplied duration string. -/
theorem C9_single_segment_merge (r : AnalysisResult) (d : JStr) :
    mergeAnalysisResults [r] d = { r with duration := some d } := rfl

/-- C5: the codec round-trip: for every non-negative integer s < 86400,
parsing the formatted timestamp returns exactly s. -/
theorem C5_codec_roundtrip (s : Nat) (hs : s < 86400) :
    parseTimestampToSeconds (formatSecondsToTimestamp (s : Int)) = some (s : Int) :=
  parse_format_roundtrip s hs

/-- C5 witness at s = 3725 (formatted "01:02:05"). -/
theorem C5_codec_roundtrip_witness :
    parseTimestampToSeconds (formatSecondsToTimestamp ((3725 : Nat) : Int)) =
      some ((3725 : Nat) : Int) :=
  C5_codec_roundtrip 3725 (by decide)

/-- C6: if every per-segment analysis failed (all outcomes are none), the
orchestrator raises the fatal "Analysis failed to produce any results."
error and never returns a report. -/
theorem C6_all_segments_failed (outcomes : List (Option AnalysisResult)) (d : JStr)
    (h : ∀ o ∈ outcomes, o = none) :
    runAnalysisOutcomes outcomes d =
      Except.error (jstr "Analysis failed to produce any results.") ∧
    ∀ r : AnalysisResult, runAnalysisOutcomes outcomes d ≠ Except.ok r := by
  have hnil : outcomes.filterMap id = [] := by
    rw [List.filterMap_eq_nil_iff]
    intro o ho
    rw [h o ho]
    rfl
  constructor
  · unfold runAnalysisOutcomes
    rw [hnil]
    rfl
  · intro r hr
    unfold runAnalysisOutcomes at hr
    rw [hnil] at hr
    exact Except.noConfusion hr

/-- C6 witness: two failed segments. -/
theorem C6_all_segments_failed_witness :
    (runAnalysisOutcomes [none, none] (jstr "2500s") =
      Except.error (jstr "Analysis failed to produce any results.")) ∧
    ∀ r : AnalysisResult, runAnalysisOutcomes [none, none] (jstr "2500s") ≠ Except.ok r :=
  C6_all_segments_failed [none, none] (jstr "2500s") (by decide)

/-- C4: segment plan: for a positive window size, a non-positive duration
plans exactly one window; a positive duration plans ceil(d/w) windows, the
i-th being (i*w, min((i+1)*w, d)); and d = 2500, w = 1200 gives the three
windows (0,1200), (1200,2400), (2400,2500). -/
theorem C4_segment_plan (d w : Int) (hw : 0 < w) :
    (d ≤ 0 → (segmentWindows d w).length = 1) ∧
    (0 < d →
      (segmentWindows d w).length = (⌈(d : ℚ) / (w : ℚ)⌉).toNat ∧
      segmentWindows d w = (List.range (⌈(d : ℚ) / (w : ℚ)⌉).toNat).map
        (fun (i : Nat) => ((i : Int) * w, min (((i : Int) + 1) * w) d))) ∧
    segmentWindows 2500 1200 = [(0, 1200), (1200, 2400), (2400, 2500)] := by
  refine ⟨?_, ?_, by decide⟩
  · intro hd
    have hneg : ¬(d > 0) := by omega
    rw [segmentWindows, List.length_map, List.length_range, totalChunks, if_neg hneg]
    rfl
  · intro hd
    have hceil : totalChunks d w = jsCeilDiv d w := by
      simp [totalChunks, hd]
    constructor
    · rw [segmentWindows, List.length_map, List.length_range, hceil, jsCeilDiv_eq d hw]
    · rw [segmentWindows, hceil, jsCeilDiv_eq d hw]

/-- C4 witness at d = 2500, w = 1200. -/
theorem C4_segment_plan_witness :
    ((2500 : Int) ≤ 0 → (segmentWindows 2500 1200).length = 1) ∧
    ((0 : Int) < 2500 →
      (segmentWindows 2500 1200).length = (⌈(2500 : ℚ) / (1200 : ℚ)⌉).toNat ∧
      segmentWindows 2500 1200 = (List.range (⌈(2500 : ℚ) / (1200 : ℚ)⌉).toNat).map
        (fun (i : Nat) => ((i : Int) * 1200, min (((i : Int) + 1) * 1200) 2500))) ∧
    segmentWindows 2500 1200 = [(0, 1200), (1200, 2400), (2400, 2500)] :=
  C4_segment_plan 2500 1200 (by decide)

lemma correct_ite (s t : Int) :
    (if s > 0 && decide (t < s) then some (t + s) else some t : JNum) =
      some (if 0 < s ∧ t < s then t + s else t) := by
  by_cases h1 : 0 < s <;> by_cases h2 : t < s <;> simp [h1, h2]

/-- C1: in the per-segment correction, every parsed issue timestamp t and
every parsed retention-point time t is replaced by t + segmentStart exactly
when segmentStart > 0 and t < segmentStart, and left at t otherwise; in
particular with segmentStart = 1200 a raw "00:30" issue becomes "20:30"
while a raw "25:00" issue keeps the value 1500 and stays "25:00". -/
theorem C1_timestamp_correction_heuristic (args : RawArgs) (title platform : JStr)
    (segmentStart : Int) (issues0 : List Issue) (m0 : RawMarketing)
    (pts0 : List RetentionPoint) (hIss : args.issues = some issues0)
    (hm : args.marketing = some m0) (hpts : m0.retentionCurve = some pts0) :
    List.Forall₂ (fun (a b : Issue) => ∀ t : Int,
        parseTimestampToSeconds a.timestamp = some t →
        b.timestamp = formatSecondsToTimestamp
          (if 0 < segmentStart ∧ t < segmentStart then t + segmentStart else t))
      issues0 (parseResponseArgs args title platform segmentStart).issues ∧
    List.Forall₂ (fun (p q : RetentionPoint) => ∀ t : Int,
        parseTimestampToSeconds p.time = some t →
        q.time = formatSecondsToTimestamp
          (if 0 < segmentStart ∧ t < segmentStart then t + segmentStart else t))
      pts0 (parseResponseArgs args title platform segmentStart).marketing.retentionCurve ∧
    (parseResponseArgs rawArgsSeg (jstr "T") (jstr "YouTube") 1200).issues.map Issue.timestamp =
      [jstr "20:30", jstr "25:00"] ∧
    parseTimestampToSeconds (jstr "00:30") = some 30 ∧
    parseTimestampToSeconds (jstr "25:00") = some 1500 := by
  refine ⟨?_, ?_, by decide, by decide, by decide⟩
  · have hiss : (parseResponseArgs args title platform segmentStart).issues =
        issues0.map (fun issue =>
          { issue with timestamp := formatJ (match parseTimestampToSeconds issue.timestamp with
              | some t => if segmentStart > 0 && decide (t < segmentStart)
                          then some (t + segmentStart) else some t
              | none => none) }) := by
      simp [parseResponseArgs, hIss]
    rw [hiss]
    rw [List.forall₂_map_right_iff]
    rw [List.forall₂_same]
    intro a _ t ht
    rw [ht]
    simp only []
    rw [correct_ite]
    rfl
  · have hcur : (parseResponseArgs args title platform segmentStart).marketing.retentionCurve =
        pts0.map (fun point =>
          { point with time := formatJ (match parseTimestampToSeconds point.time with
              | some t => if segmentStart > 0 && decide (t < segmentStart)
                          then some (t + segmentStart) else some t
              | none => none) }) := by
      simp [parseResponseArgs, hm, hpts]
    rw [hcur]
    rw [List.forall₂_map_right_iff]
    rw [List.forall₂_same]
    intro p _ t ht
    rw [ht]
    simp only []
    rw [correct_ite]
    rfl

/-- C1 witness: the fixture reply of a segment starting at 1200 s. -/
theorem C1_timestamp_correction_heuristic_witness :
    List.Forall₂ (fun (a b : Issue) => ∀ t : Int,
        parseTimestampToSeconds a.timestamp = some t →
        b.timestamp = formatSecondsToTimestamp
          (if 0 < (1200 : Int) ∧ t < 1200 then t + 1200 else t))
      [{ issueMajor with timestamp := jstr "00:30" },
       { issueMajor with timestamp := jstr "25:00" }]
      (parseResponseArgs rawArgsSeg (jstr "T") (jstr "YouTube") 1200).issues ∧
    List.Forall₂ (fun (p q : RetentionPoint) => ∀ t : Int,
        parseTimestampToSeconds p.time = some t →
        q.time = formatSecondsToTimestamp
          (if 0 < (1200 : Int) ∧ t < 1200 then t + 1200 else t))
      [{ time := jstr "00:30", value := some 60 }]
      (parseResponseArgs rawArgsSeg (jstr "T") (jstr "YouTube") 1200).marketing.retentionCurve ∧
    (parseResponseArgs rawArgsSeg (jstr "T") (jstr "YouTube") 1200).issues.map Issue.timestamp =
      [jstr "20:30", jstr "25:00"] ∧
    parseTimestampToSeconds (jstr "00:30") = some 30 ∧
    parseTimestampToSeconds (jstr "25:00") = some 1500 :=
  C1_timestamp_correction_heuristic rawArgsSeg (jstr "T") (jstr "YouTube") 1200
    [{ issueMajor with timestamp := jstr "00:30" },
     { issueMajor with timestamp := jstr "25:00" }]
    { overallScore := some 70, hookScore := some 8,
      retentionCurve := some [{ time := jstr "00:30", value := some 60 }] }
    [{ time := jstr "00:30", value := some 60 }] rfl rfl rfl

/-- C10: for a well-formed structured reply, the correction step maps each
issue and each retention point to the same record with only the timestamp
text replaced, the replacement being the parse/offset/re-serialize step
`correctTimestamp`; counts are preserved, and re-serialization happens even
without an offset: in the first segment (start 0) a raw "90s" becomes
"01:30". -/
theorem C10_correction_frame (args : RawArgs) (title platform : JStr)
    (segmentStart : Int) (issues0 : List Issue) (m0 : RawMarketing)
    (pts0 : List RetentionPoint) (hIss : args.issues = some issues0)
    (hm : args.marketing = some m0) (hpts : m0.retentionCurve = some pts0) :
    (parseResponseArgs args title platform segmentStart).issues =
      issues0.map (fun issue =>
        { issue with timestamp := correctTimestamp segmentStart issue.timestamp }) ∧
    (parseResponseArgs args title platform segmentStart).marketing.retentionCurve =
      pts0.map (fun point =>
        { point with time := correctTimestamp segmentStart point.time }) ∧
    (parseResponseArgs args title platform segmentStart).issues.length = issues0.length ∧
    (parseResponseArgs args title platform segmentStart).marketing.retentionCurve.length =
      pts0.length ∧
    correctTimestamp 0 (jstr "90s") = jstr "01:30" := by
  have h1 : (parseResponseArgs args title platform segmentStart).issues =
      issues0.map (fun issue =>
        { issue with timestamp := correctTimestamp segmentStart issue.timestamp }) := by
    simp [parseResponseArgs, hIss, correctTimestamp]
  have h2 : (parseResponseArgs args title platform segmentStart).marketing.retentionCurve =
      pts0.map (fun point =>
        { point with time := correctTimestamp segmentStart point.time }) := by
    simp [parseResponseArgs, hm, hpts, correctTimestamp]
  refine ⟨h1, h2, ?_, ?_, by decide⟩
  · rw [h1, List.length_map]
  · rw [h2, List.length_map]

/-- C10 witness: the first-segment fixture with a raw "90s" timestamp. -/
theorem C10_correction_frame_witness :
    (parseResponseArgs rawArgsFirst (jstr "T") (jstr "YouTube") 0).issues =
      [{ issueMajor with timestamp := jstr "90s" }].map (fun issue =>
        { issue with timestamp := correctTimestamp 0 issue.timestamp }) ∧
    (parseResponseArgs rawArgsFirst (jstr "T") (jstr "YouTube") 0).marketing.retentionCurve =
      ([] : List RetentionPoint).map (fun point =>
        { point with time := correctTimestamp 0 point.time }) ∧
    (parseResponseArgs rawArgsFirst (jstr "T") (jstr "YouTube") 0).issues.length =
      [{ issueMajor with timestamp := jstr "90s" }].length ∧
    (parseResponseArgs rawArgsFirst (jstr "T") (jstr "YouTube") 0).marketing.retentionCurve.length =
      ([] : List RetentionPoint).length ∧
    correctTimestamp 0 (jstr "90s") = jstr "01:30" :=
  C10_correction_frame rawArgsFirst (jstr "T") (jstr "YouTube") 0
    [{ issueMajor with timestamp := jstr "90s" }]
    { overallScore := some 80, hookScore := some 9, retentionCurve := some [] }
    [] rfl rfl rfl

/-- C2 counterexample: two segments carrying issues with the same
(timestamp, description) key but different severities: the source's JS-Map
deduplication keeps the LAST occurrence, not the first one the claim
describes. -/
theorem C2_counterexample :
    (mergeAnalysisResults [segA, segB] (jstr "2500s")).issues ≠
      claimIssueMerge [segA, segB] := by decide

/-- C2 amended: for two or more segment results whose issue timestamps all
parse, the merged issues are sorted non-decreasingly by parsed timestamp,
carry pairwise distinct concatenated timestamp+description keys, all come
from the concatenated input, each is the LAST input occurrence of its key,
and the keys present are exactly the keys of the concatenated input. -/
theorem C2_issue_merge (results : List AnalysisResult) (d : JStr)
    (h2 : 2 ≤ results.length)
    (hparse : ∀ r ∈ results, ∀ i ∈ r.issues,
      (parseTimestampToSeconds i.timestamp).isSome) :
    List.Pairwise (fun a b => tsVal a.timestamp ≤ tsVal b.timestamp)
      (mergeAnalysisResults results d).issues ∧
    List.Pairwise (fun a b => issueKey a ≠ issueKey b)
      (mergeAnalysisResults results d).issues ∧
    (∀ x ∈ (mergeAnalysisResults results d).issues,
      ((results.flatMap (fun r => r.issues)).filter
        (fun y => issueKey y = issueKey x)).getLast? = some x) ∧
    (∀ x ∈ (mergeAnalysisResults results d).issues,
      x ∈ results.flatMap (fun r => r.issues)) ∧
    (∀ k : JStr, (∃ x ∈ results.flatMap (fun r => r.issues), issueKey x = k) ↔
      (∃ x ∈ (mergeAnalysisResults results d).issues, issueKey x = k)) := by
  rcases results with _ | ⟨r1, _ | ⟨r2, rest⟩⟩
  · simp at h2
  · simp at h2
  · have hmerged : (mergeAnalysisResults (r1 :: r2 :: rest) d).issues =
        jsSort (timeLe Issue.timestamp)
          (dedupRec issueKey ((r1 :: r2 :: rest).flatMap (fun r => r.issues))) := by
      rw [mergeAnalysisResults, jsMapValues_eq_dedupRec]
    set all := (r1 :: r2 :: rest).flatMap (fun r => r.issues) with hall
    have hallparse : ∀ x ∈ all, (parseTimestampToSeconds x.timestamp).isSome := by
      intro x hx
      rcases List.mem_flatMap.mp hx with ⟨r, hr, hxr⟩
      exact hparse r hr x hxr
    have hmemsort : ∀ x, x ∈ (mergeAnalysisResults (r1 :: r2 :: rest) d).issues →
        x ∈ dedupRec issueKey all := by
      intro x hx
      rw [hmerged] at hx
      exact ((jsSort_perm _ _).mem_iff).mp hx
    refine ⟨?_, ?_, ?_, ?_, ?_⟩
    · rw [hmerged]
      apply pairwise_jsSort (fun i : Issue => tsVal i.timestamp) (timeLe Issue.timestamp)
      intro a ha b hb
      exact timeLe_iff (hallparse a (mem_dedupRec ha)) (hallparse b (mem_dedupRec hb))
    · rw [hmerged]
      have hsymm : ∀ {a b : Issue}, issueKey a ≠ issueKey b → issueKey b ≠ issueKey a :=
        fun h he => h he.symm
      rw [List.Perm.pairwise_iff hsymm
        (jsSort_perm (timeLe Issue.timestamp) (dedupRec issueKey all))]
      exact dedupRec_pairwise_keys issueKey all
    · intro x hx
      exact dedupRec_lastWins issueKey all x (hmemsort x hx)
    · intro x hx
      exact mem_dedupRec (hmemsort x hx)
    · intro k
      constructor
      · rintro ⟨x, hx, hk⟩
        rcases dedupRec_keys_complete issueKey all x hx with ⟨u, hu, hku⟩
        refine ⟨u, ?_, by rw [hku, hk]⟩
        rw [hmerged]
        exact ((jsSort_perm _ _).mem_iff).mpr hu
      · rintro ⟨x, hx, hk⟩
        exact ⟨x, mem_dedupRec (hmemsort x hx), hk⟩

/-- C2 witness: the two fixture segments sharing one issue key. -/
theorem C2_issue_merge_witness :
    List.Pairwise (fun a b => tsVal a.timestamp ≤ tsVal b.timestamp)
      (mergeAnalysisResults [segA, segB] (jstr "2500s")).issues ∧
    List.Pairwise (fun a b => issueKey a ≠ issueKey b)
      (mergeAnalysisResults [segA, segB] (jstr "2500s")).issues ∧
    (∀ x ∈ (mergeAnalysisResults [segA, segB] (jstr "2500s")).issues,
      (([segA, segB].flatMap (fun r => r.issues)).filter
        (fun y => issueKey y = issueKey x)).getLast? = some x) ∧
    (∀ x ∈ (mergeAnalysisResults [segA, segB] (jstr "2500s")).issues,
      x ∈ [segA, segB].flatMap (fun r => r.issues)) ∧
    (∀ k : JStr, (∃ x ∈ [segA, segB].flatMap (fun r => r.issues), issueKey x = k) ↔
      (∃ x ∈ (mergeAnalysisResults [segA, segB] (jstr "2500s")).issues, issueKey x = k)) :=
  C2_issue_merge [segA, segB] (jstr "2500s") (by decide) (by decide)

/-- C7 counterexample: two segments carrying retention points with the same
time key but different values: the source's JS-Map deduplication keeps the
LAST point of the key group, not the first one the claim describes. -/
theorem C7_counterexample :
    (mergeAnalysisResults [segA, segB] (jstr "2500s")).marketing.retentionCurve ≠
      claimCurveMerge [segA, segB] := by decide

/-- C7 amended: for two or more segment results whose retention times all
parse, the merged curve has at most 20 points, is non-decreasing in parsed
time, consists of input points, includes the head of the deduplicated
sorted sequence, and each surviving point is the LAST point with its time
key in the stable-sorted concatenation. -/
theorem C7_curve_merge (results : List AnalysisResult) (d : JStr)
    (h2 : 2 ≤ results.length)
    (hparse : ∀ r ∈ results, ∀ p ∈ r.marketing.retentionCurve,
      (parseTimestampToSeconds p.time).isSome) :
    (mergeAnalysisResults results d).marketing.retentionCurve.length ≤ 20 ∧
    List.Pairwise (fun p q => tsVal p.time ≤ tsVal q.time)
      (mergeAnalysisResults results d).marketing.retentionCurve ∧
    (∀ p ∈ (mergeAnalysisResults results d).marketing.retentionCurve,
      p ∈ results.flatMap (fun r => r.marketing.retentionCurve)) ∧
    (∀ x : RetentionPoint,
      (dedupRec pointKey (jsSort (timeLe RetentionPoint.time)
        (results.flatMap (fun r => r.marketing.retentionCurve)))).head? = some x →
      x ∈ (mergeAnalysisResults results d).marketing.retentionCurve) ∧
    (∀ p ∈ (mergeAnalysisResults results d).marketing.retentionCurve,
      ((jsSort (timeLe RetentionPoint.time)
          (results.flatMap (fun r => r.marketing.retentionCurve))).filter
        (fun q => pointKey q = pointKey p)).getLast? = some p) := by
  rcases results with _ | ⟨r1, _ | ⟨r2, rest⟩⟩
  · simp at h2
  · simp at h2
  · have hcur : (mergeAnalysisResults (r1 :: r2 :: rest) d).marketing.retentionCurve =
        downsampleCurve (dedupRec pointKey (jsSort (timeLe RetentionPoint.time)
          ((r1 :: r2 :: rest).flatMap (fun r => r.marketing.retentionCurve)))) := by
      rw [mergeAnalysisResults, jsMapValues_eq_dedupRec pointKey]
    set all := (r1 :: r2 :: rest).flatMap (fun r => r.marketing.retentionCurve) with hall
    set sorted := jsSort (timeLe RetentionPoint.time) all with hsorted
    have hallparse : ∀ x ∈ all, (parseTimestampToSeconds x.time).isSome := by
      intro x hx
      rcases List.mem_flatMap.mp hx with ⟨r, hr, hxr⟩
      exact hparse r hr x hxr
    have hsortparse : ∀ x ∈ sorted, (parseTimestampToSeconds x.time).isSome := by
      intro x hx
      exact hallparse x ((jsSort_perm _ _).mem_iff.mp hx)
    have hmemdedup : ∀ x ∈ (mergeAnalysisResults (r1 :: r2 :: rest) d).marketing.retentionCurve,
        x ∈ dedupRec pointKey sorted := by
      intro x hx
      rw [hcur] at hx
      exact (downsampleCurve_sublist _).mem hx
    refine ⟨?_, ?_, ?_, ?_, ?_⟩
    · rw [hcur]
      exact downsampleCurve_length_le _
    · rw [hcur]
      apply List.Pairwise.sublist (downsampleCurve_sublist _)
      apply dedupRec_pairwise_of pointKey (fun p : RetentionPoint => tsVal p.time)
      · intro a b hk
        unfold pointKey at hk
        rw [hk]
      · apply pairwise_jsSort (fun p : RetentionPoint => tsVal p.time)
          (timeLe RetentionPoint.time)
        intro a ha b hb
        exact timeLe_iff (hallparse a ha) (hallparse b hb)
    · intro p hp
      exact (jsSort_perm _ _).mem_iff.mp (mem_dedupRec (hmemdedup p hp))
    · intro x hx
      rw [hcur]
      have hd := downsampleCurve_head (dedupRec pointKey sorted) x hx
      exact List.mem_of_mem_head? hd
    · intro p hp
      exact dedupRec_lastWins pointKey sorted p (hmemdedup p hp)

/-- C7 witness: the two fixture segments sharing one retention-time key. -/
theorem C7_curve_merge_witness :
    (mergeAnalysisResults [segA, segB] (jstr "2500s")).marketing.retentionCurve.length ≤ 20 ∧
    List.Pairwise (fun p q => tsVal p.time ≤ tsVal q.time)
      (mergeAnalysisResults [segA, segB] (jstr "2500s")).marketing.retentionCurve ∧
    (∀ p ∈ (mergeAnalysisResults [segA, segB] (jstr "2500s")).marketing.retentionCurve,
      p ∈ [segA, segB].flatMap (fun r => r.marketing.retentionCurve)) ∧
    (∀ x : RetentionPoint,
      (dedupRec pointKey (jsSort (timeLe RetentionPoint.time)
        ([segA, segB].flatMap (fun r => r.marketing.retentionCurve)))).head? = some x →
      x ∈ (mergeAnalysisResults [segA, segB] (jstr "2500s")).marketing.retentionCurve) ∧
    (∀ p ∈ (mergeAnalysisResults [segA, segB] (jstr "2500s")).marketing.retentionCurve,
      ((jsSort (timeLe RetentionPoint.time)
          ([segA, segB].flatMap (fun r => r.marketing.retentionCurve))).filter
        (fun q => pointKey q = pointKey p)).getLast? = some p) :=
  C7_curve_merge [segA, segB] (jstr "2500s") (by decide) (by decide)

/-- C8: for two or more segment results, the merged score is the rounded
(half-up) arithmetic mean of the present numeric score fields, and the
merged marketing.overallScore is independently the rounded mean of the
present numeric marketing.overallScore fields. -/
theorem C8_score_merge (results : List AnalysisResult) (d : JStr)
    (h2 : 2 ≤ results.length) :
    (results.filterMap (fun r => r.score) ≠ [] →
      (mergeAnalysisResults results d).score =
        some ⌊((((results.filterMap (fun r => r.score)).sum : Int) : ℚ) /
          (((results.filterMap (fun r => r.score)).length : ℚ)) + 1 / 2)⌋) ∧
    (results.filterMap (fun r => r.marketing.overallScore) ≠ [] →
      (mergeAnalysisResults results d).marketing.overallScore =
        some ⌊((((results.filterMap (fun r => r.marketing.overallScore)).sum : Int) : ℚ) /
          (((results.filterMap (fun r => r.marketing.overallScore)).length : ℚ)) + 1 / 2)⌋) := by
  rcases results with _ | ⟨r1, _ | ⟨r2, rest⟩⟩
  · simp at h2
  · simp at h2
  · constructor
    · intro hne
      have hpos : (0 : Int) <
          ((List.filterMap (fun r => r.score) (r1 :: r2 :: rest)).length : Int) := by
        have := List.length_pos.mpr hne
        omega
      rw [mergeAnalysisResults]
      simp only [if_neg hne]
      rw [jsRoundDiv_eq _ hpos, Int.cast_natCast]
    · intro hne
      have hpos : (0 : Int) <
          ((List.filterMap (fun r => r.marketing.overallScore) (r1 :: r2 :: rest)).length : Int) := by
        have := List.length_pos.mpr hne
        omega
      rw [mergeAnalysisResults]
      simp only [if_neg hne]
      rw [jsRoundDiv_eq _ hpos, Int.cast_natCast]

/-- C8 witness: fixture scores 80 and 91, overall scores 70 and 75. -/
theorem C8_score_merge_witness :
    ([segA, segB].filterMap (fun r => r.score) ≠ [] →
      (mergeAnalysisResults [segA, segB] (jstr "2500s")).score =
        some ⌊(((([segA, segB].filterMap (fun r => r.score)).sum : Int) : ℚ) /
          ((([segA, segB].filterMap (fun r => r.score)).length : ℚ)) + 1 / 2)⌋) ∧
    ([segA, segB].filterMap (fun r => r.marketing.overallScore) ≠ [] →
      (mergeAnalysisResults [segA, segB] (jstr "2500s")).marketing.overallScore =
        some ⌊(((([segA, segB].filterMap (fun r => r.marketing.overallScore)).sum : Int) : ℚ) /
          ((([segA, segB].filterMap (fun r => r.marketing.overallScore)).length : ℚ)) + 1 / 2)⌋) :=
  C8_score_merge [segA, segB] (jstr "2500s") (by decide)
